import Mathlib

/-!
Verification of the TwinCAT project parser (scripts/wiki_generator/twincat_parser.py).

The Python module extracts documentation records from TwinCAT source files using
regular expressions.  This file gives a shallow embedding: each regular expression
used by the source is translated into an executable scanner over `List Char` that
mirrors the semantics of Python's `re` module (leftmost match, non-overlapping
`findall`/`finditer`, greedy and lazy quantifiers with the backtracking behaviour
the concrete patterns exhibit), and each Python function of the parser becomes a
Lean definition built from those scanners.  Inputs are treated as ASCII text,
matching the source files the tool processes.
-/

/-- Python `\s` (ASCII range): space, tab, newline, carriage return,
vertical tab, form feed. -/
def isSpc (c : Char) : Bool :=
  c = ' ' || c = '\t' || c = '\n' || c = '\r' || c = Char.ofNat 11 || c = Char.ofNat 12

/-- Python `\w` restricted to ASCII: letters, digits, underscore. -/
def isWordCh (c : Char) : Bool :=
  c.isAlphanum || c = '_'

/-- Python `str.lower()` for ASCII text. -/
def pyLower (s : String) : String := String.mk (s.data.map Char.toLower)

/-- Python `str.upper()` for ASCII text. -/
def pyUpper (s : String) : String := String.mk (s.data.map Char.toUpper)

/-- Python `str.strip()` on a character list: drop `\s` from both ends. -/
def stripL (l : List Char) : List Char :=
  ((l.dropWhile isSpc).reverse.dropWhile isSpc).reverse

/-- Python `str.strip()`. -/
def pyStrip (s : String) : String := String.mk (stripL s.data)

/-- Path normalisation `.replace('\\', '/')` used by the scanner. -/
def normSlash (s : String) : String :=
  String.mk (s.data.map (fun c => if c = '\\' then '/' else c))

/-- Case-insensitive character comparison (`re.IGNORECASE` on ASCII). -/
def ciEq (a b : Char) : Bool := a.toLower = b.toLower

/-- If `pat` matches a prefix of `s` under `eq`, return the rest of `s`. -/
def matchBy (eq : Char → Char → Bool) : List Char → List Char → Option (List Char)
  | [], s => some s
  | _ :: _, [] => none
  | p :: ps, c :: cs => if eq p c then matchBy eq ps cs else none

/-- Find the first occurrence of `pat` in `s` under `eq`; return the text
before the occurrence and the text after it (the engine's scan for a literal). -/
def splitFirstBy (eq : Char → Char → Bool) (pat : List Char) :
    List Char → Option (List Char × List Char)
  | [] =>
    match matchBy eq pat [] with
    | some r => some ([], r)
    | none => none
  | c :: cs =>
    match matchBy eq pat (c :: cs) with
    | some rest => some ([], rest)
    | none =>
      match splitFirstBy eq pat cs with
      | some (pre, rest) => some (c :: pre, rest)
      | none => none

/-- Case-insensitive prefix match. -/
def matchCI (pat s : List Char) : Option (List Char) := matchBy ciEq pat s

/-- Case-insensitive first-occurrence split. -/
def splitFirstCI (pat s : List Char) : Option (List Char × List Char) :=
  splitFirstBy ciEq pat s

/-- Whether `pat` occurs (case-insensitively) anywhere in `s`. -/
def occursCI (pat s : List Char) : Bool := (splitFirstCI pat s).isSome

/-- Whether `pat` occurs (case-sensitively) in `s`: Python's `pat in s`. -/
def containsSub (s pat : String) : Bool :=
  (splitFirstBy (fun a b => a = b) pat.data s.data).isSome

/-- `re.findall(OPEN + '(.*?)' + CLOSE, text, re.DOTALL | re.IGNORECASE)`:
scan left to right; at each occurrence of `op` capture lazily up to the first
following `cl`, then continue after the close marker (non-overlapping matches).
The fuel argument bounds the recursion; each step consumes at least one
character, so fuel `s.length` is always sufficient. -/
def findallDelimF (op cl : List Char) : Nat → List Char → List (List Char)
  | 0, _ => []
  | _ + 1, [] => []
  | fuel + 1, c :: cs =>
    match matchCI op (c :: cs) with
    | some rest =>
      match splitFirstCI cl rest with
      | some (content, rest2) => content :: findallDelimF op cl fuel rest2
      | none => findallDelimF op cl fuel cs
    | none => findallDelimF op cl fuel cs

def findallDelim (op cl : List Char) (s : List Char) : List (List Char) :=
  findallDelimF op cl s.length s

/-- `re.findall(r'VAR(?:\s|$)(.*?)END_VAR', text, re.DOTALL | re.IGNORECASE)`.
The `$` alternative can match only at the end of the text (or before a final
newline), where no `END_VAR` can follow, so only the `\s` branch ever
produces a match; the capture starts after the consumed whitespace character. -/
def findallVarWsF : Nat → List Char → List (List Char)
  | 0, _ => []
  | _ + 1, [] => []
  | fuel + 1, c :: cs =>
    match matchCI ['v', 'a', 'r'] (c :: cs) with
    | some (w :: rest1) =>
      if isSpc w then
        match splitFirstCI ['e', 'n', 'd', '_', 'v', 'a', 'r'] rest1 with
        | some (content, rest2) => content :: findallVarWsF fuel rest2
        | none => findallVarWsF fuel cs
      else findallVarWsF fuel cs
    | _ => findallVarWsF fuel cs

def findallVarWs (s : List Char) : List (List Char) :=
  findallVarWsF s.length s

/-- `re.findall(r'//\s*(.*)', text)`: at each `//`, greedy `\s*` (which may
cross newlines), then `.*` captures to the end of the line. -/
def lineCommentsF : Nat → List Char → List (List Char)
  | 0, _ => []
  | _ + 1, [] => []
  | fuel + 1, c :: cs =>
    match c, cs with
    | '/', '/' :: rest =>
      let afterWs := rest.dropWhile isSpc
      (afterWs.takeWhile (fun d => d ≠ '\n')) ::
        lineCommentsF fuel (afterWs.dropWhile (fun d => d ≠ '\n'))
    | _, _ => lineCommentsF fuel cs

def lineCommentsAll (s : List Char) : List (List Char) :=
  lineCommentsF s.length s

/-- The `\s*\*\)` tail of the block-comment pattern: greedy whitespace, then
the close marker.  (Backtracking inside the greedy `\s*` cannot help, since a
`*` is not a whitespace character.) -/
def stripCloseBC (s : List Char) : Option (List Char) :=
  match s.dropWhile isSpc with
  | '*' :: ')' :: r2 => some r2
  | _ => none

/-- The lazy `(.*?)\s*\*\)` scan of the block-comment pattern: grow the capture
one character at a time until `\s*\*\)` matches. -/
def findCloseBC : List Char → Option (List Char × List Char)
  | [] => none
  | c :: cs =>
    match stripCloseBC (c :: cs) with
    | some r2 => some ([], r2)
    | none =>
      match findCloseBC cs with
      | some (pre, r2) => some (c :: pre, r2)
      | none => none

/-- `re.findall(r'\(\*\s*(.*?)\s*\*\)', text, re.DOTALL)`. -/
def blockCommentsF : Nat → List Char → List (List Char)
  | 0, _ => []
  | _ + 1, [] => []
  | fuel + 1, c :: cs =>
    match c, cs with
    | '(', '*' :: rest =>
      match findCloseBC (rest.dropWhile isSpc) with
      | some (content, rest2) => content :: blockCommentsF fuel rest2
      | none => blockCommentsF fuel cs
    | _, _ => blockCommentsF fuel cs

def blockCommentsAll (s : List Char) : List (List Char) :=
  blockCommentsF s.length s

/-- `re.search(r'STRUCT\s*(.*?)END_STRUCT', text, re.DOTALL | re.IGNORECASE)`:
the first match's capture group. -/
def searchStructF : Nat → List Char → Option (List Char)
  | 0, _ => none
  | _ + 1, [] => none
  | fuel + 1, c :: cs =>
    match matchCI ['s', 't', 'r', 'u', 'c', 't'] (c :: cs) with
    | some rest =>
      match splitFirstCI ['e', 'n', 'd', '_', 's', 't', 'r', 'u', 'c', 't']
          (rest.dropWhile isSpc) with
      | some (content, _) => some content
      | none => searchStructF fuel cs
    | none => searchStructF fuel cs

def searchStruct (s : List Char) : Option (List Char) :=
  searchStructF s.length s

/-- A variable/member record as built by the parser
(`{'name': ..., 'type': ..., 'default': ..., 'comment': ...}`). -/
structure VarField where
  name : String
  type : String
  dflt : String
  comment : String
deriving Repr, DecidableEq

/-- Raw groups of one match of the field pattern
`(\w+)\s*:\s*([^;:=]+)(?:\s*:=\s*([^;]+))?\s*;?\s*(?://\s*(.*))?`,
with the suffix at which the match ended (where `finditer` resumes). -/
structure RawMatch where
  name : List Char
  ty : List Char
  dflt : Option (List Char)
  cmt : Option (List Char)
  rest : List Char
deriving Repr

/-- `\s*([^X]+)` for a character class excluding `excl` but containing all
whitespace: greedy `\s*` first, then the group takes a maximal nonempty run;
when the run after maximal whitespace is empty the engine backtracks the
`\s*` one character, so the group becomes that single whitespace character. -/
def groupExcl (excl : Char → Bool) (s : List Char) : Option (List Char × List Char) :=
  let w := s.takeWhile isSpc
  let s1 := s.dropWhile isSpc
  let t := s1.takeWhile (fun c => !(excl c))
  if t.isEmpty then
    match w.reverse with
    | [] => none
    | lastWs :: _ => some ([lastWs], s1)
  else
    some (t, s1.dropWhile (fun c => !(excl c)))

/-- The optional default group `(?:\s*:=\s*([^;]+))?`: on failure the engine
rewinds to the position before the group. -/
def matchDefault (s : List Char) : Option (List Char) × List Char :=
  match s.dropWhile isSpc with
  | ':' :: '=' :: s2 =>
    match groupExcl (fun c => c = ';') s2 with
    | some (d, rest) => (some d, rest)
    | none => (none, s)
  | _ => (none, s)

/-- Attempt the field pattern at the start of `s`.  `(\w+)` takes a maximal
word run (backtracking it cannot help: a shorter run is followed by a word
character, never by `:`), then `\s*:\s*`, the type group, the optional
default, `\s*;?\s*`, and the optional trailing comment `(?://\s*(.*))?`
(whose `.*` stops at a newline). -/
def matchVarAt (s : List Char) : Option RawMatch :=
  let name := s.takeWhile isWordCh
  if name.isEmpty then none
  else
    match (s.dropWhile isWordCh).dropWhile isSpc with
    | ':' :: s3 =>
      match groupExcl (fun c => c = ';' || c = ':' || c = '=') s3 with
      | none => none
      | some (ty, s4) =>
        let (dflt, s5) := matchDefault s4
        let s6 := s5.dropWhile isSpc
        let s7 := match s6 with
                  | ';' :: r => r.dropWhile isSpc
                  | _ => s6
        match s7 with
        | '/' :: '/' :: r =>
          let r1 := r.dropWhile isSpc
          some ⟨name, ty, dflt, some (r1.takeWhile (fun d => d ≠ '\n')),
                r1.dropWhile (fun d => d ≠ '\n')⟩
        | _ => some ⟨name, ty, dflt, none, s7⟩
    | _ => none

/-- `re.finditer(var_pattern, block, re.MULTILINE)`: try the pattern at each
position, resuming after the end of each match.  (`re.MULTILINE` only affects
`^`/`$`, which the pattern does not use.) -/
def finditerVarsF : Nat → List Char → List RawMatch
  | 0, _ => []
  | _ + 1, [] => []
  | fuel + 1, c :: cs =>
    match matchVarAt (c :: cs) with
    | some m => m :: finditerVarsF fuel m.rest
    | none => finditerVarsF fuel cs

def finditerVars (s : List Char) : List RawMatch :=
  finditerVarsF s.length s

/-- The region keywords the source filters out
(`['VAR', 'END_VAR', 'VAR_INPUT', 'VAR_OUTPUT']`). -/
def keywordFilterList : List String := ["VAR", "END_VAR", "VAR_INPUT", "VAR_OUTPUT"]

/-- Per-block body of the loop in `_extract_variables`: each match's groups
are stripped (`None` groups become empty strings) and a match is kept only if
`name and not name.upper() in ['VAR', 'END_VAR', 'VAR_INPUT', 'VAR_OUTPUT']`. -/
def blockFields (block : List Char) : List VarField :=
  (finditerVars block).filterMap fun m =>
    let name := pyStrip (String.mk m.name)
    let ty := pyStrip (String.mk m.ty)
    let df := match m.dflt with
              | some d => pyStrip (String.mk d)
              | none => ""
    let cm := match m.cmt with
              | some d => pyStrip (String.mk d)
              | none => ""
    if name ≠ "" && !(keywordFilterList.contains (pyUpper name)) then
      some ⟨name, ty, df, cm⟩
    else none

/-- The `var_blocks` list of `_extract_variables`: global sources scan
`VAR_GLOBAL(.*?)END_VAR`; all others scan `VAR_INPUT(.*?)END_VAR`, then
`VAR_OUTPUT(.*?)END_VAR`, then `VAR(?:\s|$)(.*?)END_VAR`. -/
def varBlocks (isGlobal : Bool) (t : List Char) : List (List Char) :=
  if isGlobal then
    findallDelim "var_global".data "end_var".data t
  else
    findallDelim "var_input".data "end_var".data t
      ++ findallDelim "var_output".data "end_var".data t
      ++ findallVarWs t

/-- `_extract_variables(text, is_global)`: the per-block field lists are
appended into one result list, blocks in `var_blocks` order. -/
def extractVariables (isGlobal : Bool) (text : String) : List VarField :=
  ((varBlocks isGlobal text.data).map blockFields).flatten

/-- `_extract_struct_members(text)`: the field pattern applied to the capture
of `re.search(r'STRUCT\s*(.*?)END_STRUCT', ...)` when it exists; a match is
kept when its stripped name is nonempty. -/
def extractStructMembers (text : String) : List VarField :=
  match searchStruct text.data with
  | none => []
  | some content =>
    (finditerVars content).filterMap fun m =>
      let name := pyStrip (String.mk m.name)
      let ty := pyStrip (String.mk m.ty)
      let df := match m.dflt with
                | some d => pyStrip (String.mk d)
                | none => ""
      let cm := match m.cmt with
                | some d => pyStrip (String.mk d)
                | none => ""
      if name ≠ "" then some ⟨name, ty, df, cm⟩ else none

/-- The documentation record built by `_extract_documentation`. -/
structure DocInfo where
  description : String
  author : String
  version : String
  date : String
  comments : List String
deriving Repr, DecidableEq

/-- `line.split(':', 1)[1].strip()`: everything after the first colon,
stripped.  (In the source this is only evaluated on lines that contain a
colon; on a colon-free line it yields the empty string here.) -/
def afterColonVal (line : String) : String :=
  pyStrip (String.mk ((line.data.dropWhile (fun c => c ≠ ':')).drop 1))

/-- Python `str.startswith(pre)`. -/
def startsWithS (s pre : String) : Bool := pre.data.isPrefixOf s.data

/-- One iteration of the label loop of `_extract_documentation`:
`line_lower = line.lower().strip()` is tested against the four label
prefixes with an if/elif chain, and on a match the remainder of the
original line after its first colon is stripped and assigned. -/
def applyLabel (d : DocInfo) (line : String) : DocInfo :=
  let ll := pyStrip (pyLower line)
  if startsWithS ll "purpose:" || startsWithS ll "description:" then
    { d with description := afterColonVal line }
  else if startsWithS ll "author:" then
    { d with author := afterColonVal line }
  else if startsWithS ll "version:" then
    { d with version := afterColonVal line }
  else if startsWithS ll "date:" then
    { d with date := afterColonVal line }
  else d

/-- `_extract_documentation(text)`: the captured line comments are stored in
`comments`; the label loop fills the four fields; then, when at least one
block comment exists, the first block comment's stripped text overwrites
`description`. -/
def extractDocumentation (text : String) : DocInfo :=
  let comments := (lineCommentsAll text.data).map String.mk
  let d1 := comments.foldl applyLabel ⟨"", "", "", "", comments⟩
  match blockCommentsAll text.data with
  | [] => d1
  | b :: _ => { d1 with description := pyStrip (String.mk b) }

/-- Parsed XML element (the view of `xml.etree.ElementTree` the parser uses):
tag, attributes, text content, child elements. -/
inductive XElem where
  | node (tag : String) (attrs : List (String × String)) (txt : Option String)
      (children : List XElem)
deriving Repr

def XElem.tag : XElem → String
  | .node t _ _ _ => t

def XElem.attrs : XElem → List (String × String)
  | .node _ a _ _ => a

def XElem.txt : XElem → Option String
  | .node _ _ t _ => t

def XElem.children : XElem → List XElem
  | .node _ _ _ c => c

/-- `element.get(key, default)`: the attribute's value, or the default when
the attribute is absent. -/
def XElem.getAttr (e : XElem) (key dflt : String) : String :=
  match e.attrs.find? (fun p => p.1 = key) with
  | some p => p.2
  | none => dflt

mutual

/-- Preorder search of one element and its descendants. -/
def findDescE (tg : String) : XElem → Option XElem
  | .node t a x cs =>
    if t = tg then some (.node t a x cs) else findDescL tg cs

/-- `root.find(".//TAG")` relative to a list of elements: the first element
with the given tag in document (preorder) order. -/
def findDescL (tg : String) : List XElem → Option XElem
  | [] => none
  | e :: es =>
    match findDescE tg e with
    | some r => some r
    | none => findDescL tg es

end

def XElem.findDesc (root : XElem) (tg : String) : Option XElem :=
  findDescL tg root.children

/-- `root.find(".//Implementation/ST")`: the first `ST` child of an
`Implementation` descendant (document order over the `Implementation`
elements). -/
def findImplST (root : XElem) : Option XElem :=
  match root.findDesc "Implementation" with
  | some impl => impl.children.find? (fun e => e.tag = "ST")
  | none => none

/-- The text-region convention used for `Declaration` and `Implementation/ST`:
`text = ""` then `if element is not None and element.text: text = element.text.strip()`
(`None` and the empty string are both falsy). -/
def textOfElem (e : Option XElem) : String :=
  match e with
  | some el =>
    match el.txt with
    | some s => if s ≠ "" then pyStrip s else ""
    | none => ""
  | none => ""

/-- `POUInfo` as built by `_parse_pou_file`. -/
structure POUInfo where
  name : String
  type : String
  file_path : String
  description : String
  author : String
  version : String
  date : String
  vars : List VarField
  implementation : String
  comments : List String
deriving Repr, DecidableEq

/-- `DUTInfo` as built by `_parse_dut_file`. -/
structure DUTInfo where
  name : String
  type : String
  file_path : String
  description : String
  author : String
  version : String
  members : List VarField
  comments : List String
deriving Repr, DecidableEq

/-- `GVLInfo` as built by `_parse_gvl_file`. -/
structure GVLInfo where
  name : String
  file_path : String
  description : String
  vars : List VarField
  comments : List String
deriving Repr, DecidableEq

/-- One on-disk source file as the parser sees it: its project-relative path
(`str(file_path.relative_to(self.project_root))`) and the result of
`ET.parse` — `none` models a raised `xml.etree.ElementTree.ParseError`. -/
structure SrcFile where
  path : String
  xml : Option XElem

/-- `_parse_pou_file`: `None` on XML parse error (caught and logged) or when
no `POU` element is found; the `Name` attribute defaults to `"Unknown"` and
`SpecialFunc` to `"PROGRAM"`. -/
def parsePouFile (f : SrcFile) : Option POUInfo :=
  match f.xml with
  | none => none
  | some root =>
    match root.findDesc "POU" with
    | none => none
    | some pou =>
      let declText := textOfElem (root.findDesc "Declaration")
      let doc := extractDocumentation declText
      some
        { name := pou.getAttr "Name" "Unknown"
          type := pou.getAttr "SpecialFunc" "PROGRAM"
          file_path := f.path
          description := doc.description
          author := doc.author
          version := doc.version
          date := doc.date
          vars := extractVariables false declText
          implementation := textOfElem (findImplST root)
          comments := doc.comments }

/-- `_parse_dut_file`: as for POUs, with the `STRUCT`/`ENUM` subtype decided
by the case-sensitive containment test
`"TYPE" in declaration_text and "ENUM" in declaration_text`. -/
def parseDutFile (f : SrcFile) : Option DUTInfo :=
  match f.xml with
  | none => none
  | some root =>
    match root.findDesc "DUT" with
    | none => none
    | some dut =>
      let declText := textOfElem (root.findDesc "Declaration")
      let doc := extractDocumentation declText
      some
        { name := dut.getAttr "Name" "Unknown"
          type := if containsSub declText "TYPE" && containsSub declText "ENUM"
                  then "ENUM" else "STRUCT"
          file_path := f.path
          description := doc.description
          author := doc.author
          version := doc.version
          members := extractStructMembers declText
          comments := doc.comments }

/-- `_parse_gvl_file`. -/
def parseGvlFile (f : SrcFile) : Option GVLInfo :=
  match f.xml with
  | none => none
  | some root =>
    match root.findDesc "GVL" with
    | none => none
    | some gvl =>
      let declText := textOfElem (root.findDesc "Declaration")
      let doc := extractDocumentation declText
      some
        { name := gvl.getAttr "Name" "Unknown"
          file_path := f.path
          description := doc.description
          vars := extractVariables true declText
          comments := doc.comments }

/-- The filter applied by `_parse_pous`/`_parse_duts`/`_parse_gvls` to the
recursive glob results: when the included-files list is nonempty, keep the
files whose separator-normalised relative path is a member; otherwise keep
everything. -/
def enumerateIncluded (included : List String) (diskFiles : List String) : List String :=
  if included ≠ [] then
    diskFiles.filter (fun p => included.contains (normSlash p))
  else diskFiles

/-- The per-file loop of `_parse_pous`: each file is processed inside its own
try/except, so a file on which parsing fails (modelled by `parsePouFile`
returning `none`) is logged and skipped and the loop continues with the
remaining files. -/
def parsePouList (files : List SrcFile) : List POUInfo :=
  files.filterMap parsePouFile

/-- String comparison used to model Python's `sorted` on strings
(lexicographic by code point). -/
def strLtB : List Char → List Char → Bool
  | [], [] => false
  | [], _ :: _ => true
  | _ :: _, [] => false
  | a :: as, b :: bs =>
    if a.val < b.val then true else if b.val < a.val then false else strLtB as bs

/-- Insert into a sorted duplicate-free list, keeping it sorted and
duplicate-free. -/
def insertSortedStr (x : String) : List String → List String
  | [] => [x]
  | y :: ys =>
    if x = y then y :: ys
    else if strLtB x.data y.data then x :: y :: ys
    else y :: insertSortedStr x ys

/-- Python `sorted(set(l))`: the distinct elements of `l` in sorted order. -/
def sortedDedup (l : List String) : List String :=
  l.foldl (fun acc x => insertSortedStr x acc) []

/-- One project manifest (`.tsproj` file) as `_get_project_included_files`
sees it: `none` models a parse exception (caught per manifest and logged as a
warning); otherwise the list of `Compile` elements' `Include` attributes
(namespaced and non-namespaced `findall` results concatenated), where an
element without the attribute carries `none`. -/
abbrev ManifestT := Option (List (Option String))

/-- The contribution of one manifest: each present, nonempty (`if inc:`)
`Include` attribute, separator-normalised; a failed manifest contributes
nothing. -/
def manifestIncludes (m : ManifestT) : List String :=
  match m with
  | none => []
  | some items =>
    items.filterMap fun inc =>
      match inc with
      | some s => if s ≠ "" then some (normSlash s) else none
      | none => none

/-- `_get_project_included_files`: the deduplicated, sorted union of the
manifests' include entries (`sorted(set(includes))`); the empty list when no
manifest is found (`manifests = []`) or none contributes. -/
def getProjectIncludedFiles (manifests : List ManifestT) : List String :=
  sortedDedup ((manifests.map manifestIncludes).flatten)

/-! ### Spec-side definitions (for refinement comparisons)

These follow the specification's wording, to be compared against the
definitions translated from the source above. -/

/-- Modelled from the spec: "the intersection of files-found-on-disk and
files-listed-in-manifest, normalized to forward-slash-separated relative
paths for comparison", keeping on-disk enumeration order. -/
def intersectOnDisk (disk includes : List String) : List String :=
  disk.filter (fun p => includes.contains (normSlash p))

/-- Whether a captured comment line carries the author label
(case-insensitive test on the lowered, stripped line). -/
def isAuthorLine (l : String) : Bool :=
  startsWithS (pyStrip (pyLower l)) "author:"

/-- Modelled from the spec: the author field is the trimmed
remainder-after-colon of the last author-labelled comment line ("a later
line with the same label overwrites an earlier one"), or empty if none. -/
def authorSpecOf (ls : List String) : String :=
  match ls.reverse.find? isAuthorLine with
  | some l => afterColonVal l
  | none => ""

/-- The description/purpose label test of the documentation loop. -/
def labelDescB (s : String) : Bool :=
  startsWithS (pyStrip (pyLower s)) "purpose:"
    || startsWithS (pyStrip (pyLower s)) "description:"

/-- The version label test of the documentation loop. -/
def labelVersionB (s : String) : Bool :=
  startsWithS (pyStrip (pyLower s)) "version:"

/-- The date label test of the documentation loop. -/
def labelDateB (s : String) : Bool :=
  startsWithS (pyStrip (pyLower s)) "date:"

/-! ### Helper lemmas -/

/-- Two prefixes of the same list are ordered by length. -/
theorem prefix_clash {l p q : List Char} (hp : p.isPrefixOf l = true)
    (hq : q.isPrefixOf l = true) (hlen : p.length ≤ q.length) :
    p.isPrefixOf q = true := by
  rw [List.isPrefixOf_iff_prefix] at hp hq ⊢
  exact List.prefix_of_prefix_length_le hp hq hlen

theorem mem_insertSortedStr (a x : String) (l : List String) :
    a ∈ insertSortedStr x l ↔ a = x ∨ a ∈ l := by
  induction l with
  | nil => simp [insertSortedStr]
  | cons y ys ih =>
    by_cases hxy : x = y
    · subst hxy
      simp only [insertSortedStr, if_pos rfl]
      constructor
      · intro h; exact Or.inr h
      · rintro (h | h)
        · subst h; exact List.mem_cons_self _ _
        · exact h
    · simp only [insertSortedStr, if_neg hxy]
      by_cases hlt : strLtB x.data y.data
      · simp only [if_pos hlt, List.mem_cons]
        try tauto
      · simp only [if_neg hlt, List.mem_cons, ih]
        try tauto

theorem mem_foldl_insertSortedStr (l : List String) :
    ∀ (acc : List String) (a : String),
      a ∈ l.foldl (fun acc x => insertSortedStr x acc) acc ↔ a ∈ acc ∨ a ∈ l := by
  induction l with
  | nil => intro acc a; simp
  | cons x xs ih =>
    intro acc a
    rw [List.foldl_cons, ih, mem_insertSortedStr]
    simp only [List.mem_cons]
    tauto

theorem mem_sortedDedup (a : String) (l : List String) :
    a ∈ sortedDedup l ↔ a ∈ l := by
  rw [sortedDedup, mem_foldl_insertSortedStr]
  simp

/-- Extending the text to the right preserves a prefix match, extending the
leftover by the same suffix. -/
theorem matchBy_append {eq : Char → Char → Bool} :
    ∀ {pat l r : List Char}, matchBy eq pat l = some r →
      ∀ ext, matchBy eq pat (l ++ ext) = some (r ++ ext)
  | [], l, r, h, ext => by
    simp only [matchBy] at h
    cases h
    rfl
  | p :: ps, [], r, h, ext => by simp [matchBy] at h
  | p :: ps, c :: cs, r, h, ext => by
    simp only [matchBy] at h ⊢
    by_cases hpc : eq p c
    · rw [if_pos hpc] at h ⊢
      exact matchBy_append h ext
    · rw [if_neg hpc] at h
      cases h

/-- A successful scan splits the text as
`prefix-without-occurrence ++ matched-part ++ leftover`. -/
theorem splitFirstBy_decomp {eq : Char → Char → Bool} {pat : List Char} :
    ∀ {s pre rest : List Char}, splitFirstBy eq pat s = some (pre, rest) →
      ∃ mid, s = pre ++ mid ∧ matchBy eq pat mid = some rest
  | [], pre, rest, h => by
    simp only [splitFirstBy] at h
    cases hm : matchBy eq pat ([] : List Char) with
    | none => rw [hm] at h; cases h
    | some r =>
      rw [hm] at h
      cases h
      exact ⟨[], rfl, hm⟩
  | c :: cs, pre, rest, h => by
    simp only [splitFirstBy] at h
    cases hm : matchBy eq pat (c :: cs) with
    | some r =>
      rw [hm] at h
      cases h
      exact ⟨c :: cs, rfl, hm⟩
    | none =>
      rw [hm] at h
      cases hs : splitFirstBy eq pat cs with
      | none => rw [hs] at h; cases h
      | some pr =>
        obtain ⟨pre1, rest1⟩ := pr
        rw [hs] at h
        cases h
        obtain ⟨mid, hcs, hmid⟩ := splitFirstBy_decomp hs
        exact ⟨mid, by rw [List.cons_append, ← hcs], hmid⟩

/-- The scan finds the first occurrence: the prefix it returns contains no
occurrence of a nonempty pattern. -/
theorem splitFirstBy_first {eq : Char → Char → Bool} {pat : List Char}
    (hpat : pat ≠ []) :
    ∀ {s pre rest : List Char}, splitFirstBy eq pat s = some (pre, rest) →
      splitFirstBy eq pat pre = none
  | [], pre, rest, h => by
    simp only [splitFirstBy] at h
    cases hm : matchBy eq pat ([] : List Char) with
    | none => rw [hm] at h; cases h
    | some r =>
      obtain ⟨p, ps, rfl⟩ : ∃ p ps, pat = p :: ps :=
        match pat, hpat with
        | p :: ps, _ => ⟨p, ps, rfl⟩
      simp [matchBy] at hm
  | c :: cs, pre, rest, h => by
    obtain ⟨p, ps, rfl⟩ : ∃ p ps, pat = p :: ps :=
      match pat, hpat with
      | p :: ps, _ => ⟨p, ps, rfl⟩
    simp only [splitFirstBy] at h
    cases hm : matchBy eq (p :: ps) (c :: cs) with
    | some r =>
      rw [hm] at h
      cases h
      simp [splitFirstBy, matchBy]
    | none =>
      rw [hm] at h
      cases hs : splitFirstBy eq (p :: ps) cs with
      | none => rw [hs] at h; cases h
      | some pr =>
        obtain ⟨pre1, rest1⟩ := pr
        rw [hs] at h
        cases h
        have hpre1 : splitFirstBy eq (p :: ps) pre1 = none :=
          splitFirstBy_first hpat hs
        obtain ⟨mid, hcs, hmid⟩ := splitFirstBy_decomp hs
        simp only [splitFirstBy]
        have hhead : matchBy eq (p :: ps) (c :: pre1) = none := by
          cases hh : matchBy eq (p :: ps) (c :: pre1) with
          | none => rfl
          | some r2 =>
            have := matchBy_append hh mid
            rw [List.cons_append, ← hcs] at this
            rw [this] at hm
            cases hm
        rw [hhead, hpre1]

/-- A line cannot start with two label prefixes neither of which is a prefix
of the other. -/
theorem startsWith_clash {L p q : String} (h1 : startsWithS L p = true)
    (h2 : startsWithS L q = true) (hpq : p.data.isPrefixOf q.data = false)
    (hqp : q.data.isPrefixOf p.data = false) : False := by
  unfold startsWithS at h1 h2
  rcases Nat.le_total p.data.length q.data.length with h | h
  · rw [prefix_clash h1 h2 h] at hpq
    cases hpq
  · rw [prefix_clash h2 h1 h] at hqp
    cases hqp

theorem band_eq_false_of_not_both {a b : Bool} (h : ¬(a = true ∧ b = true)) :
    (a && b) = false := by
  cases a <;> cases b <;> simp_all

/-- The description/purpose test excludes the author test. -/
theorem labelDescB_author_excl (s : String) (h1 : labelDescB s = true)
    (h2 : isAuthorLine s = true) : False := by
  unfold labelDescB at h1
  unfold isAuthorLine at h2
  rcases Bool.or_eq_true_iff.mp h1 with h | h
  · exact startsWith_clash h h2 (by decide) (by decide)
  · exact startsWith_clash h h2 (by decide) (by decide)

/-- The if/elif chain of `_extract_documentation` touches the author field
exactly on author-labelled lines; the description/purpose branch cannot fire
on an author-labelled line. -/
theorem applyLabel_author (d : DocInfo) (l : String) :
    (applyLabel d l).author = if isAuthorLine l then afterColonVal l else d.author := by
  unfold applyLabel
  by_cases h1 : (startsWithS (pyStrip (pyLower l)) "purpose:"
      || startsWithS (pyStrip (pyLower l)) "description:") = true
  · rw [if_pos h1]
    have hA : isAuthorLine l = false := by
      cases hA : isAuthorLine l with
      | false => rfl
      | true => exact absurd (labelDescB_author_excl l (by unfold labelDescB; exact h1) hA) id
    rw [hA]
    simp
  · rw [if_neg h1]
    by_cases h2 : startsWithS (pyStrip (pyLower l)) "author:" = true
    · have hA : isAuthorLine l = true := h2
      rw [if_pos h2, hA, if_pos rfl]
    · have hA : isAuthorLine l = false := by
        unfold isAuthorLine
        exact Bool.not_eq_true _ ▸ Bool.of_not_eq_true h2
      rw [if_neg h2, hA]
      simp only [Bool.false_eq_true, if_false]
      by_cases h3 : startsWithS (pyStrip (pyLower l)) "version:" = true
      · rw [if_pos h3]
      · rw [if_neg h3]
        by_cases h4 : startsWithS (pyStrip (pyLower l)) "date:" = true
        · rw [if_pos h4]
        · rw [if_neg h4]

/-- Projecting the label fold onto the author field. -/
theorem foldl_applyLabel_author :
    ∀ (ls : List String) (d : DocInfo),
      (ls.foldl applyLabel d).author =
        ls.foldl (fun a l => if isAuthorLine l then afterColonVal l else a) d.author
  | [], _ => rfl
  | l :: ls, d => by
    rw [List.foldl_cons, List.foldl_cons, foldl_applyLabel_author ls,
      applyLabel_author]

/-- A last-wins fold is the value at the last matching element. -/
theorem foldl_ite_last (v : String → String) (p : String → Bool) :
    ∀ (ls : List String) (a : String),
      ls.foldl (fun a l => if p l then v l else a) a =
        match ls.reverse.find? p with
        | some x => v x
        | none => a
  | [], _ => rfl
  | l :: ls, a => by
    rw [List.foldl_cons, foldl_ite_last v p ls, List.reverse_cons,
      List.find?_append]
    cases h : ls.reverse.find? p with
    | some x => simp [h]
    | none =>
      simp only [h, Option.none_or]
      cases hp : p l <;> simp [List.find?_cons, hp]

/-- The block-comment pass never changes the author field. -/
theorem extractDocumentation_author (t : String) :
    (extractDocumentation t).author =
      authorSpecOf ((lineCommentsAll t.data).map String.mk) := by
  unfold extractDocumentation authorSpecOf
  cases h : blockCommentsAll t.data with
  | nil =>
    simp only [h]
    rw [foldl_applyLabel_author, foldl_ite_last]
  | cons b bs =>
    simp only [h]
    rw [foldl_applyLabel_author, foldl_ite_last]

/-- The capture of the first `STRUCT` match stops at the first following
`END_STRUCT`: the captured region contains no occurrence of the close
marker, so it cannot reach into a later structure block. -/
theorem searchStructF_no_close :
    ∀ (fuel : Nat) (s c : List Char), searchStructF fuel s = some c →
      occursCI ['e', 'n', 'd', '_', 's', 't', 'r', 'u', 'c', 't'] c = false
  | 0, _, c, h => by simp [searchStructF] at h
  | _ + 1, [], c, h => by simp [searchStructF] at h
  | fuel + 1, a :: as, c, h => by
    simp only [searchStructF] at h
    cases hm : matchCI ['s', 't', 'r', 'u', 'c', 't'] (a :: as) with
    | some rest =>
      rw [hm] at h
      simp only at h
      cases hs : splitFirstCI ['e', 'n', 'd', '_', 's', 't', 'r', 'u', 'c', 't']
          (rest.dropWhile isSpc) with
      | some pr =>
        obtain ⟨content, r⟩ := pr
        rw [hs] at h
        simp only at h
        cases h
        unfold occursCI
        rw [show splitFirstCI ['e', 'n', 'd', '_', 's', 't', 'r', 'u', 'c', 't'] c =
            none from splitFirstBy_first (by decide) hs]
        rfl
      | none =>
        rw [hs] at h
        simp only at h
        exact searchStructF_no_close fuel as c h
    | none =>
      rw [hm] at h
      simp only at h
      exact searchStructF_no_close fuel as c h

/-- Every field returned by `_extract_variables` passed the source's guard:
its name is nonempty and its uppercased name is not one of the four filtered
keywords. -/
theorem extractVariables_names (g : Bool) (t : String) (f : VarField)
    (hf : f ∈ extractVariables g t) :
    f.name ≠ "" ∧ keywordFilterList.contains (pyUpper f.name) = false := by
  unfold extractVariables at hf
  rw [List.mem_flatten] at hf
  obtain ⟨l, hl, hfl⟩ := hf
  rw [List.mem_map] at hl
  obtain ⟨b, hb, rfl⟩ := hl
  unfold blockFields at hfl
  rw [List.mem_filterMap] at hfl
  obtain ⟨m, hm, hsome⟩ := hfl
  simp only at hsome
  split at hsome
  · rename_i hguard
    cases hsome
    rw [Bool.and_eq_true] at hguard
    obtain ⟨h1, h2⟩ := hguard
    refine ⟨of_decide_eq_true h1, ?_⟩
    cases hc : keywordFilterList.contains
        (pyUpper (pyStrip (String.mk m.name))) with
    | false => rfl
    | true => rw [hc] at h2; cases h2
  · cases hsome

/-! ### Claims -/

/-- Claim C1, counterexample: a project manifest that is present and parses
but lists no compile-include entries yields an empty filter list, so the
enumeration returns all on-disk files instead of the empty intersection the
claim requires. -/
theorem c1_counterexample :
    enumerateIncluded (getProjectIncludedFiles [some []]) ["Main.TcPOU"] ≠
      intersectOnDisk ["Main.TcPOU"] (getProjectIncludedFiles [some []]) := by
  decide

/-- Claim C1 (amended): when the manifests contribute at least one
compile-include entry, the enumeration is exactly the intersection of the
on-disk files with the manifests' entries, compared as forward-slash
normalised relative paths; when no manifest is found, none parses, or none
lists any entry, the enumeration is exactly all on-disk files. -/
theorem c1_manifest_filter_amended (ms : List ManifestT) (disk : List String) :
    (getProjectIncludedFiles ms ≠ [] →
      enumerateIncluded (getProjectIncludedFiles ms) disk =
        intersectOnDisk disk ((ms.map manifestIncludes).flatten))
    ∧ (getProjectIncludedFiles ms = [] →
      enumerateIncluded (getProjectIncludedFiles ms) disk = disk) := by
  constructor
  · intro h
    unfold enumerateIncluded intersectOnDisk
    rw [if_pos h]
    apply List.filter_congr
    intro p _
    unfold getProjectIncludedFiles
    simp only [List.contains, List.elem_eq_mem, decide_eq_decide]
    exact mem_sortedDedup _ _
  · intro h
    unfold enumerateIncluded
    rw [if_neg (by simp [h])]

/-- Claim C1, witness: a one-entry manifest filters a two-file disk down to
the intersection. -/
theorem c1_witness :
    getProjectIncludedFiles [some [some "a.TcPOU"]] ≠ [] ∧
    enumerateIncluded (getProjectIncludedFiles [some [some "a.TcPOU"]])
        ["a.TcPOU", "b.TcPOU"] =
      intersectOnDisk ["a.TcPOU", "b.TcPOU"]
        (([some [some "a.TcPOU"]].map manifestIncludes).flatten) :=
  ⟨by decide, (c1_manifest_filter_amended [some [some "a.TcPOU"]]
    ["a.TcPOU", "b.TcPOU"]).1 (by decide)⟩

/-- Claim C2, counterexample: on
`END_VAR VAR_INPUT\nq : INT;\nEND_VAR` the declaration `q : INT;` is
captured both by the input-parameter pass and by the plain local-variable
pass (whose pattern starts at the `VAR` suffix of the leading `END_VAR`
token), so it is contributed twice, not exactly once. -/
theorem c2_counterexample :
    extractVariables false "END_VAR VAR_INPUT\nq : INT;\nEND_VAR" =
      [⟨"q", "INT", "", ""⟩, ⟨"q", "INT", "", ""⟩]
    ∧ ((findallDelim "var_input".data "end_var".data
        ("END_VAR VAR_INPUT\nq : INT;\nEND_VAR").data).map blockFields).flatten =
      [⟨"q", "INT", "", ""⟩]
    ∧ ((findallVarWs ("END_VAR VAR_INPUT\nq : INT;\nEND_VAR").data).map
        blockFields).flatten = [⟨"q", "INT", "", ""⟩] := by
  decide

/-- Claim C2 (amended): for a non-global region the result is the
concatenation of the input-parameter pass, then the output-parameter pass,
then the plain local-variable pass, each pass concatenating its blocks'
fields in discovery order; a declaration may however be captured by more
than one pass when block markers overlap (the plain pass can start at the
`VAR` suffix of an `END_VAR` token), so declarations are not necessarily
contributed exactly once. -/
theorem c2_pass_order_amended (t : String) :
    extractVariables false t =
      ((findallDelim "var_input".data "end_var".data t.data).map blockFields).flatten
      ++ ((findallDelim "var_output".data "end_var".data t.data).map blockFields).flatten
      ++ ((findallVarWs t.data).map blockFields).flatten := by
  unfold extractVariables varBlocks
  simp [List.map_append, List.flatten_append]

/-- Claim C3, counterexample: when a preceding declaration in the same block
lacks its terminating semicolon, its type group absorbs the following line,
so the block containing the line `nCount : DINT := 10; // counter` yields no
field named `nCount`. -/
theorem c3_counterexample :
    extractVariables false
        "VAR_INPUT\nx : ARRAY\nnCount : DINT := 10; // counter\nEND_VAR" =
      [⟨"x", "ARRAY\nnCount", "", ""⟩]
    ∧ ((extractVariables false
        "VAR_INPUT\nx : ARRAY\nnCount : DINT := 10; // counter\nEND_VAR").filter
        (fun f => f.name == "nCount")) = [] := by
  decide

/-- Claim C3 (amended): for an input-parameter block whose declarations are
not absorbed by an earlier unterminated declaration — in particular a block
consisting of the line `nCount : DINT := 10; // counter` — the extractor
returns the field `⟨nCount, DINT, 10, counter⟩`; the per-line pattern
tolerates an absent trailing comment, an absent default, and an absent
terminating semicolon, yielding empty strings for the absent parts. -/
theorem c3_field_line_amended :
    extractVariables false "VAR_INPUT\nnCount : DINT := 10; // counter\nEND_VAR" =
      [⟨"nCount", "DINT", "10", "counter"⟩]
    ∧ extractVariables false "VAR_INPUT\nnCount : DINT := 10;\nEND_VAR" =
      [⟨"nCount", "DINT", "10", ""⟩]
    ∧ extractVariables false "VAR_INPUT\nnCount : DINT; // counter\nEND_VAR" =
      [⟨"nCount", "DINT", "", "counter"⟩]
    ∧ extractVariables false "VAR_INPUT\nnCount : DINT\nEND_VAR" =
      [⟨"nCount", "DINT", "", ""⟩] := by
  decide

/-- Claim C4: whenever the declaration text contains at least one block
comment, the description is the first block comment's trimmed text,
unconditionally overwriting any description set from a line-comment label;
in particular `Description: short` followed by `(* long form *)` yields the
description `long form`. -/
theorem c4_block_comment_precedence :
    (∀ (t : String) (b : List Char) (rest : List (List Char)),
      blockCommentsAll t.data = b :: rest →
      (extractDocumentation t).description = pyStrip (String.mk b))
    ∧ (extractDocumentation "// Description: short\n(* long form *)").description
        = "long form" := by
  constructor
  · intro t b rest h
    simp [extractDocumentation, h]
  · decide

/-- Claim C4, witness. -/
theorem c4_witness :
    blockCommentsAll ("(* x *)").data = ["x".data] ∧
    (extractDocumentation "(* x *)").description = pyStrip (String.mk "x".data) :=
  ⟨by decide, c4_block_comment_precedence.1 "(* x *)" "x".data [] (by decide)⟩

/-- Claim C5: the author field equals the trimmed remainder-after-colon of
the last author-labelled comment line (case-insensitive label test on the
lowered, stripped line; a later line overwrites an earlier one); the four
label tests are pairwise exclusive, so a line matches at most one label; in
particular the line comment `Author: Jane Doe` yields author `Jane Doe`. -/
theorem c5_label_lines :
    (∀ t : String, (extractDocumentation t).author =
        authorSpecOf ((lineCommentsAll t.data).map String.mk))
    ∧ (∀ s : String,
        (labelDescB s && isAuthorLine s) = false
        ∧ (labelDescB s && labelVersionB s) = false
        ∧ (labelDescB s && labelDateB s) = false
        ∧ (isAuthorLine s && labelVersionB s) = false
        ∧ (isAuthorLine s && labelDateB s) = false
        ∧ (labelVersionB s && labelDateB s) = false)
    ∧ (extractDocumentation "// Author: Jane Doe").author = "Jane Doe" := by
  refine ⟨extractDocumentation_author, ?_, by decide⟩
  intro s
  refine ⟨?_, ?_, ?_, ?_, ?_, ?_⟩ <;> apply band_eq_false_of_not_both
  · rintro ⟨h1, h2⟩
    exact labelDescB_author_excl s h1 h2
  · rintro ⟨h1, h2⟩
    unfold labelDescB at h1
    unfold labelVersionB at h2
    rcases Bool.or_eq_true_iff.mp h1 with h | h
    · exact startsWith_clash h h2 (by decide) (by decide)
    · exact startsWith_clash h h2 (by decide) (by decide)
  · rintro ⟨h1, h2⟩
    unfold labelDescB at h1
    unfold labelDateB at h2
    rcases Bool.or_eq_true_iff.mp h1 with h | h
    · exact startsWith_clash h h2 (by decide) (by decide)
    · exact startsWith_clash h h2 (by decide) (by decide)
  · rintro ⟨h1, h2⟩
    unfold isAuthorLine at h1
    unfold labelVersionB at h2
    exact startsWith_clash h1 h2 (by decide) (by decide)
  · rintro ⟨h1, h2⟩
    unfold isAuthorLine at h1
    unfold labelDateB at h2
    exact startsWith_clash h1 h2 (by decide) (by decide)
  · rintro ⟨h1, h2⟩
    unfold labelVersionB at h1
    unfold labelDateB at h2
    exact startsWith_clash h1 h2 (by decide) (by decide)

/-- Claim C6, counterexample: the source's keyword filter list is
`['VAR', 'END_VAR', 'VAR_INPUT', 'VAR_OUTPUT']` and does not include the
global-region open marker `VAR_GLOBAL`, so a field named `VAR_GLOBAL` is
returned rather than discarded. -/
theorem c6_counterexample :
    extractVariables true "VAR_GLOBAL\nVAR_GLOBAL : INT;\nEND_VAR" =
      [⟨"VAR_GLOBAL", "INT", "", ""⟩] := by
  decide

/-- Claim C6 (amended): a match with an empty captured name, or whose
uppercased name is `VAR`, `END_VAR`, `VAR_INPUT` or `VAR_OUTPUT`, is
discarded — but `VAR_GLOBAL` is not in the filter list, so a field named
`VAR_GLOBAL` can be returned. -/
theorem c6_name_filter_amended (g : Bool) (t : String) (f : VarField)
    (hf : f ∈ extractVariables g t) :
    f.name ≠ "" ∧ pyUpper f.name ≠ "VAR" ∧ pyUpper f.name ≠ "END_VAR"
      ∧ pyUpper f.name ≠ "VAR_INPUT" ∧ pyUpper f.name ≠ "VAR_OUTPUT" := by
  obtain ⟨h1, h2⟩ := extractVariables_names g t f hf
  have hmem : pyUpper f.name ∉ keywordFilterList := by
    intro hm
    have hc : keywordFilterList.contains (pyUpper f.name) = true := by
      simp only [List.contains, List.elem_eq_mem]
      exact decide_eq_true hm
    rw [hc] at h2
    cases h2
  refine ⟨h1, ?_, ?_, ?_, ?_⟩ <;> intro hEq <;>
    exact hmem (by rw [hEq]; decide)

/-- Claim C6, witness. -/
theorem c6_witness :
    (⟨"x", "INT", "", ""⟩ : VarField) ∈ extractVariables false "VAR x : INT; END_VAR"
    ∧ ((⟨"x", "INT", "", ""⟩ : VarField).name ≠ ""
      ∧ pyUpper (⟨"x", "INT", "", ""⟩ : VarField).name ≠ "VAR"
      ∧ pyUpper (⟨"x", "INT", "", ""⟩ : VarField).name ≠ "END_VAR"
      ∧ pyUpper (⟨"x", "INT", "", ""⟩ : VarField).name ≠ "VAR_INPUT"
      ∧ pyUpper (⟨"x", "INT", "", ""⟩ : VarField).name ≠ "VAR_OUTPUT") :=
  ⟨by decide, c6_name_filter_amended false "VAR x : INT; END_VAR"
    ⟨"x", "INT", "", ""⟩ (by decide)⟩

/-- The POU source file used for the C7 counterexample: its `POU` element
carries an explicitly empty `Name` attribute. -/
def c7File : SrcFile :=
  ⟨"Empty.TcPOU", some (.node "TcPlcObject" [] none
    [.node "POU" [("Name", "")] none []])⟩

/-- Claim C7, counterexample: a source whose `Name` attribute is present but
empty produces a unit whose name is the empty string — the name is not
non-empty in all cases. -/
theorem c7_counterexample :
    (parsePouFile c7File).map POUInfo.name = some "" := by
  decide

/-- Claim C7 (amended): every successfully parsed unit's name is the
top-level element's `Name` attribute with default `"Unknown"`: the name is
`"Unknown"` when the attribute is absent and the raw attribute value when
present — which is non-empty except when the source carries an explicitly
empty `Name` attribute. -/
theorem c7_name_amended :
    (∀ (f : SrcFile) (root el : XElem) (info : POUInfo),
      f.xml = some root → root.findDesc "POU" = some el →
      parsePouFile f = some info → info.name = el.getAttr "Name" "Unknown")
    ∧ (∀ (f : SrcFile) (root el : XElem) (info : DUTInfo),
      f.xml = some root → root.findDesc "DUT" = some el →
      parseDutFile f = some info → info.name = el.getAttr "Name" "Unknown")
    ∧ (∀ (f : SrcFile) (root el : XElem) (info : GVLInfo),
      f.xml = some root → root.findDesc "GVL" = some el →
      parseGvlFile f = some info → info.name = el.getAttr "Name" "Unknown")
    ∧ (∀ e : XElem, e.attrs.find? (fun p => p.1 = "Name") = none →
      e.getAttr "Name" "Unknown" = "Unknown")
    ∧ (∀ (e : XElem) (pr : String × String),
      e.attrs.find? (fun p => p.1 = "Name") = some pr →
      e.getAttr "Name" "Unknown" = pr.2) := by
  refine ⟨?_, ?_, ?_, ?_, ?_⟩
  · intro f root el info h1 h2 h3
    unfold parsePouFile at h3
    rw [h1] at h3
    simp only at h3
    rw [h2] at h3
    simp only at h3
    cases h3
    rfl
  · intro f root el info h1 h2 h3
    unfold parseDutFile at h3
    rw [h1] at h3
    simp only at h3
    rw [h2] at h3
    simp only at h3
    cases h3
    rfl
  · intro f root el info h1 h2 h3
    unfold parseGvlFile at h3
    rw [h1] at h3
    simp only at h3
    rw [h2] at h3
    simp only at h3
    cases h3
    rfl
  · intro e h
    unfold XElem.getAttr
    rw [h]
  · intro e pr h
    unfold XElem.getAttr
    rw [h]

/-- The POU source file used for the C7 witness. -/
def c7WFile : SrcFile :=
  ⟨"Main.TcPOU", some (.node "TcPlcObject" [] none
    [.node "POU" [("Name", "Main")] none []])⟩

/-- The unit produced for `c7WFile`. -/
def c7WInfo : POUInfo :=
  ⟨"Main", "PROGRAM", "Main.TcPOU", "", "", "", "", [], "", []⟩

/-- Claim C7, witness. -/
theorem c7_witness :
    parsePouFile c7WFile = some c7WInfo ∧
    c7WInfo.name =
      (XElem.node "POU" [("Name", "Main")] none []).getAttr "Name" "Unknown" :=
  ⟨by decide, c7_name_amended.1 c7WFile
    (.node "TcPlcObject" [] none [.node "POU" [("Name", "Main")] none []])
    (.node "POU" [("Name", "Main")] none []) c7WInfo rfl rfl (by decide)⟩

/-- Claim C8: a file whose XML wrapper fails to parse, or whose required
top-level element is missing, yields no unit; such a file is absent from the
result and the remaining files of the same enumeration are processed exactly
as they would be without it. -/
theorem c8_per_file_isolation :
    (∀ (pre : List SrcFile) (f : SrcFile) (post : List SrcFile),
      parsePouFile f = none →
      parsePouList (pre ++ f :: post) = parsePouList pre ++ parsePouList post)
    ∧ (∀ f : SrcFile, f.xml = none → parsePouFile f = none)
    ∧ (∀ (f : SrcFile) (root : XElem), f.xml = some root →
      root.findDesc "POU" = none → parsePouFile f = none) := by
  refine ⟨?_, ?_, ?_⟩
  · intro pre f post h
    unfold parsePouList
    rw [List.filterMap_append, List.filterMap_cons_none h]
  · intro f h
    unfold parsePouFile
    rw [h]
  · intro f root h1 h2
    unfold parsePouFile
    rw [h1]
    simp only
    rw [h2]

/-- A well-formed POU file used for the C8 witness. -/
def c8Good1 : SrcFile :=
  ⟨"A.TcPOU", some (.node "TcPlcObject" [] none
    [.node "POU" [("Name", "A")] none []])⟩

/-- A second well-formed POU file used for the C8 witness. -/
def c8Good2 : SrcFile :=
  ⟨"B.TcPOU", some (.node "TcPlcObject" [] none
    [.node "POU" [("Name", "B")] none []])⟩

/-- An unparseable source file used for the C8 witness. -/
def c8Bad : SrcFile := ⟨"Broken.TcPOU", none⟩

/-- Claim C8, witness: the broken file in the middle is skipped and both
neighbours are still processed. -/
theorem c8_witness :
    parsePouFile c8Bad = none ∧
    parsePouList ([c8Good1] ++ c8Bad :: [c8Good2]) =
      parsePouList [c8Good1] ++ parsePouList [c8Good2] :=
  ⟨by decide, c8_per_file_isolation.1 [c8Good1] c8Bad [c8Good2] (by decide)⟩

/-- Claim C9: struct-member extraction on
`STRUCT x: INT; y: BOOL; END_STRUCT` yields exactly the two fields in
declared order with empty defaults and comments, and any declaration text
without a structure block yields the empty sequence. -/
theorem c9_struct_members :
    extractStructMembers "STRUCT x: INT; y: BOOL; END_STRUCT" =
      [⟨"x", "INT", "", ""⟩, ⟨"y", "BOOL", "", ""⟩]
    ∧ (∀ t : String, searchStruct t.data = none → extractStructMembers t = []) := by
  refine ⟨by decide, ?_⟩
  intro t h
  unfold extractStructMembers
  rw [h]

/-- Claim C9, witness: an enumeration declaration has no structure block and
yields the empty member sequence. -/
theorem c9_witness :
    searchStruct ("TYPE E :\n(\n  A := 0,\n  B\n);\nEND_TYPE").data = none ∧
    extractStructMembers "TYPE E :\n(\n  A := 0,\n  B\n);\nEND_TYPE" = [] :=
  ⟨by decide, c9_struct_members.2 "TYPE E :\n(\n  A := 0,\n  B\n);\nEND_TYPE"
    (by decide)⟩

/-- Claim C10: struct-member extraction uses only the first structure block:
the captured region never contains the block-close marker, so it cannot
extend into a later block, and on a two-block declaration only the first
block's member is returned while the second block's member is absent. -/
theorem c10_first_struct_block :
    (∀ (t c : List Char), searchStruct t = some c →
      occursCI "end_struct".data c = false)
    ∧ extractStructMembers
        "STRUCT x : INT; END_STRUCT STRUCT y : BOOL; END_STRUCT" =
      [⟨"x", "INT", "", ""⟩]
    ∧ ((extractStructMembers
        "STRUCT x : INT; END_STRUCT STRUCT y : BOOL; END_STRUCT").filter
        (fun f => f.name == "y")) = [] := by
  refine ⟨?_, by decide, by decide⟩
  intro t c h
  exact searchStructF_no_close t.length t c h

/-- Claim C10, witness. -/
theorem c10_witness :
    searchStruct ("STRUCT a : INT; END_STRUCT").data = some ("a : INT; ").data ∧
    occursCI "end_struct".data ("a : INT; ").data = false :=
  ⟨by decide, c10_first_struct_block.1 ("STRUCT a : INT; END_STRUCT").data
    ("a : INT; ").data (by decide)⟩
